import Mathlib

/-!
Verification of the size-constrained WebP encoder core of `test1.py`
(`_encode_webp`, `_quality_search_under_cap`, `_downscale_to_limit`).

The image type, the codec, the resampling filter and the float square root
are external collaborators (PIL / libwebp / libm); they are abstracted as an
`ImgOps` bundle of functions, exactly as the Python code consumes them:
`work.size`, `work.resize`, `_encode_webp`, `math.sqrt`.  Quality values are
integers (`Int`, as Python ints), byte strings are `List Nat`, and the
float expressions `int(w * scale)` are modelled over `ℚ` with `Int.floor`
(all the quantities involved are nonnegative, where Python's `int()`
truncation agrees with the floor).

Each model function additionally records, next to the values the Python
function returns, a trace of the codec invocations (`calls`), the per-round
search results (`rounds`) and the per-round working images (`works`), and
the value the function writes into the module global `_last_good_q`
(`newLastGood`) together with the `ok` flag that `_downscale_to_limit`
drops on return (`finalFits`).  These extra fields are ghost observations
of the same computation; the returned triple of the Python function is the
`(image, data, q)` projection (`fitTriple`).
-/

namespace FinalCam

/-- `Q_MIN` from the config block of `test1.py` (line 39). -/
def Q_MIN : Int := 30

/-- `Q_MAX` from the config block of `test1.py` (line 39). -/
def Q_MAX : Int := 92

/-- `MIN_SIDE_PX` from the config block of `test1.py` (line 40). -/
def MIN_SIDE_PX : Nat := 640

/-- `MAX_DOWNSCALE_STEPS` from the config block of `test1.py` (line 42). -/
def MAX_DOWNSCALE_STEPS : Nat := 5

/-- `MAX_BYTES` from the config block of `test1.py` (line 36). -/
def MAX_BYTES : Nat := 100 * 1024

/-- The initial value of the module global `_last_good_q` (line 105). -/
def INIT_LAST_GOOD_Q : Int := 78

/-- The operations of the external collaborators, as the Python code uses
them: `size` and `resize` from PIL images, `encode` is `_encode_webp`
(a pure function of image and quality, per the spec's determinism
stipulation on the codec), `sqrtFn` is `math.sqrt` on the nonnegative
rational `max_bytes / max(len(data), 1)`. -/
structure ImgOps (I : Type) where
  size : I → Nat × Nat
  resize : I → Nat × Nat → I
  encode : I → Int → List Nat
  sqrtFn : ℚ → ℚ

/-- The result of `_quality_search_under_cap`: the returned triple
`(data, q, fits)` plus the ghost trace `calls` of the qualities passed to
`_encode_webp`, in order. -/
structure SearchOut where
  data : List Nat
  q : Int
  fits : Bool
  calls : List Int
  deriving DecidableEq, Inhabited

/-- Python `int()` applied to a nonnegative float expression: floor, then
coerced to `Nat`. -/
def pyInt (x : ℚ) : Nat := (Int.floor x).toNat

/-- The start-quality selection at the top of `_quality_search_under_cap`
(lines 119-120): the clamp `max(q_min, min(q_max, _last_good_q))` is
applied only when the caller does not supply `start_q`. -/
def clampStart (qMin qMax lastGoodQ : Int) : Option Int → Int
  | none => max qMin (min qMax lastGoodQ)
  | some s => s

/-- The `while lo <= hi and steps < max_steps` loop of
`_quality_search_under_cap` (lines 133-143), with the remaining step
budget as fuel.  Returns the final `best_bytes, best_q` pair and the trace
of midpoint qualities encoded.  `(lo + hi) // 2` is Python floor
division, `Int.fdiv`. -/
def searchLoop {I : Type} (enc : I → Int → List Nat) (img : I) (maxBytes : Nat) :
    Int → Int → Option (List Nat × Int) → Nat → Option (List Nat × Int) × List Int
  | _, _, best, 0 => (best, [])
  | lo, hi, best, Nat.succ n =>
    if lo ≤ hi then
      let mid := Int.fdiv (lo + hi) 2
      if (enc img mid).length ≤ maxBytes then
        let r := searchLoop enc img maxBytes (mid + 1) hi (some (enc img mid, mid)) n
        (r.1, mid :: r.2)
      else
        let r := searchLoop enc img maxBytes lo (mid - 1) best n
        (r.1, mid :: r.2)
    else (best, [])

/-- `_quality_search_under_cap(img, max_bytes, q_min, q_max, start_q,
max_steps)` of `test1.py` (lines 113-150); `lastGoodQ` is the module
global `_last_good_q` read when `start_q` is `None`.  Returns the Python
result triple plus the codec-invocation trace. -/
def quality_search_under_cap {I : Type} (enc : I → Int → List Nat) (img : I)
    (maxBytes : Nat) (qMin qMax : Int) (startQ : Option Int) (maxSteps : Nat)
    (lastGoodQ : Int) : SearchOut :=
  let start_q := clampStart qMin qMax lastGoodQ startQ
  let data := enc img start_q
  if data.length ≤ maxBytes then
    { data := data, q := start_q, fits := true, calls := [start_q] }
  else
    let hi : Int := if maxBytes < data.length then start_q - 1 else qMax
    match searchLoop enc img maxBytes qMin hi none maxSteps with
    | (some best, cs) =>
        { data := best.1, q := best.2, fits := true, calls := start_q :: cs }
    | (none, cs) =>
        { data := enc img qMin, q := qMin, fits := false,
          calls := start_q :: cs ++ [qMin] }

/-- The shrink factor of one downscale round (`_downscale_to_limit`, lines
168-174): the fixed `0.85` when the shorter side is at or below
`min_side`, else `sqrt(max_bytes / max(len(data), 1))` clamped to
`[0.70, 0.92]`. -/
def shrinkScale (sqrtFn : ℚ → ℚ) (maxBytes dataLen : Nat) (w h minSide : Nat) : ℚ :=
  if min w h ≤ minSide then 85 / 100
  else max (70 / 100) (min (92 / 100)
    (sqrtFn ((maxBytes : ℚ) / (max dataLen 1 : ℚ))))

/-- The new-dimension computation of one downscale round
(`_downscale_to_limit`, lines 166-179): both new dimensions are
`max(min_side, int(old * scale))`, with the `0.9` fallback when that made
neither dimension smaller. -/
def shrinkDims (sqrtFn : ℚ → ℚ) (maxBytes dataLen : Nat) (w h minSide : Nat) :
    Nat × Nat :=
  let scale : ℚ := shrinkScale sqrtFn maxBytes dataLen w h minSide
  let newW := max minSide (pyInt ((w : ℚ) * scale))
  let newH := max minSide (pyInt ((h : ℚ) * scale))
  if w ≤ newW ∧ h ≤ newH then
    (max minSide (pyInt ((w : ℚ) * (90 / 100))),
     max minSide (pyInt ((h : ℚ) * (90 / 100))))
  else (newW, newH)

/-- The output of `_downscale_to_limit`: the Python return triple
`(image, data, q)`, the value written to the global `_last_good_q`
(`newLastGood`), the `ok` flag of the search that produced the result
(bound at lines 161/183 and dropped from the return value), and the ghost
traces of per-round search outputs and per-round working images. -/
structure FitOut (I : Type) where
  image : I
  data : List Nat
  q : Int
  newLastGood : Int
  finalFits : Bool
  rounds : List SearchOut
  works : List I
  deriving DecidableEq, Inhabited

/-- The `for step in range(MAX_DOWNSCALE_STEPS)` loop of
`_downscale_to_limit` (lines 160-180) plus the final attempt after the
loop (lines 183-185), with the remaining round count as fuel.  Every
round calls the search with `start_q=_last_good_q` (the unchanged global,
since failed rounds do not write it). -/
def downscaleGo {I : Type} (ops : ImgOps I) (maxBytes minSide : Nat)
    (lastGoodQ : Int) : I → Nat → FitOut I
  | work, 0 =>
    let r := quality_search_under_cap ops.encode work maxBytes Q_MIN Q_MAX
      (some lastGoodQ) 5 lastGoodQ
    { image := work, data := r.data, q := r.q, newLastGood := r.q,
      finalFits := r.fits, rounds := [r], works := [work] }
  | work, Nat.succ n =>
    let r := quality_search_under_cap ops.encode work maxBytes Q_MIN Q_MAX
      (some lastGoodQ) 5 lastGoodQ
    if r.fits then
      { image := work, data := r.data, q := r.q, newLastGood := r.q,
        finalFits := true, rounds := [r], works := [work] }
    else
      let wh := ops.size work
      let nd := shrinkDims ops.sqrtFn maxBytes r.data.length wh.1 wh.2 minSide
      let rest := downscaleGo ops maxBytes minSide lastGoodQ
        (ops.resize work nd) n
      { rest with rounds := r :: rest.rounds, works := work :: rest.works }

/-- `_downscale_to_limit(img, max_bytes, min_side)` of `test1.py`
(lines 152-185), entered with the module global `_last_good_q = lastGoodQ`. -/
def downscale_to_limit {I : Type} (ops : ImgOps I) (img : I)
    (maxBytes minSide : Nat) (lastGoodQ : Int) : FitOut I :=
  downscaleGo ops maxBytes minSide lastGoodQ img MAX_DOWNSCALE_STEPS

/-- The value `capture_once` actually receives from `_downscale_to_limit`
(line 214): the triple `(final_img, webp_bytes, used_q)`. -/
def fitTriple {I : Type} (ops : ImgOps I) (img : I) (maxBytes minSide : Nat)
    (lastGoodQ : Int) : I × List Nat × Int :=
  let out := downscale_to_limit ops img maxBytes minSide lastGoodQ
  (out.image, out.data, out.q)

/-- Total number of codec invocations of one `_downscale_to_limit` call. -/
def totalCalls {I : Type} (out : FitOut I) : Nat :=
  (out.rounds.map fun r => r.calls.length).sum

/-- Concrete instance on dimension-only images: the codec always emits
`n` bytes regardless of image and quality. -/
def constOps (n : Nat) : ImgOps (Nat × Nat) where
  size := fun p => p
  resize := fun _ p => p
  encode := fun _ _ => List.replicate n 0
  sqrtFn := fun _ => 1

/-- Concrete instance on dimension-only images: the codec emits 100 bytes
at quality 30 and 101 bytes at any other quality. -/
def stepOps : ImgOps (Nat × Nat) where
  size := fun p => p
  resize := fun _ p => p
  encode := fun _ q => List.replicate (if q = 30 then 100 else 101) 0
  sqrtFn := fun _ => 1

/-! ### Properties of the bounded binary-search loop -/

/-- The Python midpoint `(lo + hi) // 2` lies in `[lo, hi]` when the
interval is nonempty. -/
lemma fdiv_two_mem {lo hi : Int} (h : lo ≤ hi) :
    lo ≤ Int.fdiv (lo + hi) 2 ∧ Int.fdiv (lo + hi) 2 ≤ hi := by
  rw [Int.fdiv_eq_ediv _ (by norm_num)]
  omega

/-- Any `best_bytes, best_q` pair the loop ends with was produced by an
encode at its quality and fits the cap, provided the initial pair (if
any) did. -/
lemma searchLoop_some {I : Type} (enc : I → Int → List Nat) (img : I) (cap : Nat) :
    ∀ (fuel : Nat) (lo hi : Int) (best : Option (List Nat × Int)),
      (∀ p : List Nat × Int, best = some p → p.1.length ≤ cap ∧ p.1 = enc img p.2) →
      ∀ p : List Nat × Int, (searchLoop enc img cap lo hi best fuel).1 = some p →
        p.1.length ≤ cap ∧ p.1 = enc img p.2 := by
  intro fuel
  induction fuel with
  | zero =>
    intro lo hi best hb p hp
    exact hb p hp
  | succ n ih =>
    intro lo hi best hb p hp
    simp only [searchLoop] at hp
    split at hp
    · split at hp
      next hfit =>
        refine ih _ _ _ (fun q hq => ?_) p hp
        injection hq with hq'
        subst hq'
        exact ⟨hfit, rfl⟩
      next hfit =>
        exact ih _ _ _ hb p hp
    · exact hb p hp

/-- The loop performs at most one encode per unit of step budget. -/
lemma searchLoop_calls_len {I : Type} (enc : I → Int → List Nat) (img : I) (cap : Nat) :
    ∀ (fuel : Nat) (lo hi : Int) (best : Option (List Nat × Int)),
      (searchLoop enc img cap lo hi best fuel).2.length ≤ fuel := by
  intro fuel
  induction fuel with
  | zero => intro lo hi best; simp [searchLoop]
  | succ n ih =>
    intro lo hi best
    simp only [searchLoop]
    split
    · split
      · simpa using Nat.succ_le_succ (ih _ _ _)
      · simpa using Nat.succ_le_succ (ih _ _ _)
    · simp

/-- Every quality the loop encodes at lies in the current interval. -/
lemma searchLoop_calls_mem {I : Type} (enc : I → Int → List Nat) (img : I) (cap : Nat) :
    ∀ (fuel : Nat) (lo hi : Int) (best : Option (List Nat × Int)),
      ∀ q ∈ (searchLoop enc img cap lo hi best fuel).2, lo ≤ q ∧ q ≤ hi := by
  intro fuel
  induction fuel with
  | zero => intro lo hi best q hq; simp [searchLoop] at hq
  | succ n ih =>
    intro lo hi best q hq
    simp only [searchLoop] at hq
    split at hq
    next hlh =>
      obtain ⟨h1, h2⟩ := fdiv_two_mem hlh
      split at hq <;>
      · simp only [List.mem_cons] at hq
        rcases hq with rfl | hq
        · exact ⟨h1, h2⟩
        · have := ih _ _ _ q hq
          omega
    next hlh => simp at hq

/-! ### Properties of `_quality_search_under_cap` -/

section SearchLemmas

variable {I : Type} (enc : I → Int → List Nat) (img : I) (cap : Nat)
  (qMin qMax : Int) (sq : Option Int) (steps : Nat) (g : Int)

/-- On every return path, the returned bytes are the encoding of the image
at the returned quality. -/
lemma qs_data_eq :
    (quality_search_under_cap enc img cap qMin qMax sq steps g).data =
      enc img (quality_search_under_cap enc img cap qMin qMax sq steps g).q := by
  simp only [quality_search_under_cap]
  split
  · rfl
  · split
    next best cs heq =>
      have := searchLoop_some enc img cap steps qMin _ none (by simp) best
        (by rw [heq])
      exact this.2
    next cs heq => rfl

/-- A `fits = true` result has `len(data) <= max_bytes`. -/
lemma qs_fits_le :
    (quality_search_under_cap enc img cap qMin qMax sq steps g).fits = true →
      (quality_search_under_cap enc img cap qMin qMax sq steps g).data.length ≤ cap := by
  simp only [quality_search_under_cap]
  split
  next hfit => intro _; exact hfit
  · split
    next best cs heq =>
      intro _
      have := searchLoop_some enc img cap steps qMin _ none (by simp) best
        (by rw [heq])
      exact this.1
    next cs heq => intro h; simp at h

/-- A `fits = false` result comes from the floor attempt: its quality is
`q_min`. -/
lemma qs_false_q :
    (quality_search_under_cap enc img cap qMin qMax sq steps g).fits = false →
      (quality_search_under_cap enc img cap qMin qMax sq steps g).q = qMin := by
  simp only [quality_search_under_cap]
  split
  · intro h; simp at h
  · split
    next best cs heq => intro h; simp at h
    next cs heq => intro _; rfl

/-- The first codec invocation is at the (possibly clamped) start quality. -/
lemma qs_calls_head :
    (quality_search_under_cap enc img cap qMin qMax sq steps g).calls.head? =
      some (clampStart qMin qMax g sq) := by
  simp only [quality_search_under_cap]
  split
  · rfl
  · split
    next best cs heq => rfl
    next cs heq => rfl

/-- The search performs at most `max_steps + 2` codec invocations. -/
lemma qs_calls_len :
    (quality_search_under_cap enc img cap qMin qMax sq steps g).calls.length ≤
      steps + 2 := by
  simp only [quality_search_under_cap]
  split
  · simp
  · split
    next best cs heq =>
      have h1 : cs.length ≤ steps := by
        have := searchLoop_calls_len enc img cap steps qMin
          (if cap < (enc img (clampStart qMin qMax g sq)).length
            then clampStart qMin qMax g sq - 1 else qMax) none
        rw [heq] at this
        exact this
      simp only [SearchOut.mk.injEq, List.length_cons]
      omega
    next cs heq =>
      have h1 : cs.length ≤ steps := by
        have := searchLoop_calls_len enc img cap steps qMin
          (if cap < (enc img (clampStart qMin qMax g sq)).length
            then clampStart qMin qMax g sq - 1 else qMax) none
        rw [heq] at this
        exact this
      simp only [List.cons_append, List.length_append, List.length_cons,
        List.length_nil]
      omega

/-- When the caller supplies a start quality inside `[q_min, q_max]`,
every codec invocation stays inside `[q_min, q_max]`. -/
lemma qs_calls_bounds {s : Int} (h1 : qMin ≤ s) (h2 : s ≤ qMax) :
    ∀ q ∈ (quality_search_under_cap enc img cap qMin qMax (some s) steps g).calls,
      qMin ≤ q ∧ q ≤ qMax := by
  simp only [quality_search_under_cap, clampStart]
  split
  · intro q hq
    simp only [List.mem_singleton] at hq
    subst hq
    exact ⟨h1, h2⟩
  · split
    next best cs heq =>
      intro q hq
      simp only [List.mem_cons] at hq
      rcases hq with rfl | hq
      · exact ⟨h1, h2⟩
      · have := searchLoop_calls_mem enc img cap steps qMin
          (if cap < (enc img s).length then s - 1 else qMax) none q
          (by rw [heq]; exact hq)
        constructor
        · exact this.1
        · refine le_trans this.2 ?_
          split <;> omega
    next cs heq =>
      intro q hq
      simp only [List.cons_append, List.mem_cons, List.mem_append,
        List.mem_singleton] at hq
      rcases hq with rfl | hq | rfl | h0
      · exact ⟨h1, h2⟩
      · have := searchLoop_calls_mem enc img cap steps qMin
          (if cap < (enc img s).length then s - 1 else qMax) none q
          (by rw [heq]; exact hq)
        constructor
        · exact this.1
        · refine le_trans this.2 ?_
          split <;> omega
      · exact ⟨le_refl _, le_trans h1 h2⟩
      · simp at h0

end SearchLemmas

/-! ### Properties of the shrink computation -/

/-- `int(w * s)` does not exceed `w` for a factor in `[0, 1]`. -/
lemma pyInt_le_self {w : Nat} {s : ℚ} (_h0 : 0 ≤ s) (h1 : s ≤ 1) :
    pyInt ((w : ℚ) * s) ≤ w := by
  unfold pyInt
  have h2 : (w : ℚ) * s ≤ (w : ℚ) := by
    calc (w : ℚ) * s ≤ (w : ℚ) * 1 :=
          mul_le_mul_of_nonneg_left h1 (by positivity)
    _ = (w : ℚ) := mul_one _
  have h3 : Int.floor ((w : ℚ) * s) ≤ (w : ℤ) := by
    calc Int.floor ((w : ℚ) * s) ≤ Int.floor ((w : ℚ)) := Int.floor_le_floor h2
    _ = (w : ℤ) := Int.floor_natCast w
  omega

/-- `int(w * s)` is strictly below a positive `w` for a factor below 1. -/
lemma pyInt_lt_self {w : Nat} {s : ℚ} (hw : 0 < w) (h1 : s < 1) :
    pyInt ((w : ℚ) * s) < w := by
  unfold pyInt
  have h2 : (w : ℚ) * s < (w : ℚ) := by
    calc (w : ℚ) * s < (w : ℚ) * 1 := by
          exact mul_lt_mul_of_pos_left h1 (by exact_mod_cast hw)
    _ = (w : ℚ) := mul_one _
  have h3 : Int.floor ((w : ℚ) * s) < (w : ℤ) := by
    rw [Int.floor_lt]
    push_cast
    exact h2
  omega

/-- The shrink factor is always in `[0, 0.92]`, whatever the square-root
collaborator returns. -/
lemma shrinkScale_bounds (sqrtFn : ℚ → ℚ) (cap dl w h ms : Nat) :
    0 ≤ shrinkScale sqrtFn cap dl w h ms ∧
      shrinkScale sqrtFn cap dl w h ms ≤ 92 / 100 := by
  unfold shrinkScale
  split
  · norm_num
  · constructor
    · exact le_trans (by norm_num) (le_max_left _ _)
    · exact max_le (by norm_num) (min_le_left _ _)

/-- One round's new dimensions: both at least `min_side`; neither exceeds
the old one provided the old ones were at least `min_side`; both strictly
shrink when the old ones were strictly above `min_side`. -/
lemma shrinkDims_spec (sqrtFn : ℚ → ℚ) (cap dl w h ms : Nat)
    (hw : ms ≤ w) (hh : ms ≤ h) :
    ms ≤ (shrinkDims sqrtFn cap dl w h ms).1 ∧
    ms ≤ (shrinkDims sqrtFn cap dl w h ms).2 ∧
    (shrinkDims sqrtFn cap dl w h ms).1 ≤ w ∧
    (shrinkDims sqrtFn cap dl w h ms).2 ≤ h ∧
    (ms < w → ms < h →
      (shrinkDims sqrtFn cap dl w h ms).1 < w ∧
      (shrinkDims sqrtFn cap dl w h ms).2 < h) := by
  have key : ∀ (s : ℚ), 0 ≤ s → s ≤ 92 / 100 → ∀ (d : Nat), ms ≤ d →
      ms ≤ max ms (pyInt ((d : ℚ) * s)) ∧ max ms (pyInt ((d : ℚ) * s)) ≤ d ∧
      (ms < d → max ms (pyInt ((d : ℚ) * s)) < d) := by
    intro s h0 h1 d hd
    refine ⟨le_max_left _ _,
      max_le hd (pyInt_le_self h0 (h1.trans (by norm_num))), fun hlt => ?_⟩
    exact max_lt hlt (pyInt_lt_self (lt_of_le_of_lt (Nat.zero_le ms) hlt)
      (lt_of_le_of_lt h1 (by norm_num)))
  obtain ⟨hs0, hs1⟩ := shrinkScale_bounds sqrtFn cap dl w h ms
  simp only [shrinkDims]
  split
  · obtain ⟨a1, a2, a3⟩ := key (90 / 100) (by norm_num) (by norm_num) w hw
    obtain ⟨b1, b2, b3⟩ := key (90 / 100) (by norm_num) (by norm_num) h hh
    exact ⟨a1, b1, a2, b2, fun h1 h2 => ⟨a3 h1, b3 h2⟩⟩
  · obtain ⟨a1, a2, a3⟩ := key _ hs0 hs1 w hw
    obtain ⟨b1, b2, b3⟩ := key _ hs0 hs1 h hh
    exact ⟨a1, b1, a2, b2, fun h1 h2 => ⟨a3 h1, b3 h2⟩⟩

/-- Both new dimensions are at least `min_side`, unconditionally (this is
the `max(min_side, ...)` in the source — it also raises dimensions that
were below `min_side`). -/
lemma shrinkDims_ge_ms (sqrtFn : ℚ → ℚ) (cap dl w h ms : Nat) :
    ms ≤ (shrinkDims sqrtFn cap dl w h ms).1 ∧
      ms ≤ (shrinkDims sqrtFn cap dl w h ms).2 := by
  simp only [shrinkDims]
  split <;> exact ⟨le_max_left _ _, le_max_left _ _⟩

/-! ### Properties of `_downscale_to_limit` -/

section DownLemmas

variable {I : Type} (ops : ImgOps I) (cap ms : Nat) (g : Int)

/-- A `fits = true` flag means the returned bytes fit the cap. -/
lemma downscaleGo_finalFits_le :
    ∀ (n : Nat) (work : I),
      (downscaleGo ops cap ms g work n).finalFits = true →
      (downscaleGo ops cap ms g work n).data.length ≤ cap := by
  intro n
  induction n with
  | zero =>
    intro work h
    exact qs_fits_le ops.encode work cap Q_MIN Q_MAX (some g) 5 g h
  | succ n ih =>
    intro work
    simp only [downscaleGo]
    by_cases hfit :
      (quality_search_under_cap ops.encode work cap Q_MIN Q_MAX (some g) 5 g).fits = true
    · rw [if_pos hfit]
      intro _
      exact qs_fits_le ops.encode work cap Q_MIN Q_MAX (some g) 5 g hfit
    · rw [if_neg hfit]
      intro h
      exact ih _ h

/-- On all return paths, the returned bytes are the encoding of the
returned image at the returned quality. -/
lemma downscaleGo_data_eq :
    ∀ (n : Nat) (work : I),
      (downscaleGo ops cap ms g work n).data =
        ops.encode (downscaleGo ops cap ms g work n).image
          (downscaleGo ops cap ms g work n).q := by
  intro n
  induction n with
  | zero =>
    intro work
    exact qs_data_eq ops.encode work cap Q_MIN Q_MAX (some g) 5 g
  | succ n ih =>
    intro work
    simp only [downscaleGo]
    by_cases hfit :
      (quality_search_under_cap ops.encode work cap Q_MIN Q_MAX (some g) 5 g).fits = true
    · rw [if_pos hfit]
      exact qs_data_eq ops.encode work cap Q_MIN Q_MAX (some g) 5 g
    · rw [if_neg hfit]
      exact ih _

/-- The value written into `_last_good_q` is always the returned quality
(both on success, line 163, and after exhaustion, line 184). -/
lemma downscaleGo_newLastGood :
    ∀ (n : Nat) (work : I),
      (downscaleGo ops cap ms g work n).newLastGood =
        (downscaleGo ops cap ms g work n).q := by
  intro n
  induction n with
  | zero => intro work; rfl
  | succ n ih =>
    intro work
    simp only [downscaleGo]
    by_cases hfit :
      (quality_search_under_cap ops.encode work cap Q_MIN Q_MAX (some g) 5 g).fits = true
    · rw [if_pos hfit]
    · rw [if_neg hfit]
      exact ih _

/-- A `fits = false` flag means the result came from a floor attempt:
its quality is `Q_MIN`. -/
lemma downscaleGo_false_q :
    ∀ (n : Nat) (work : I),
      (downscaleGo ops cap ms g work n).finalFits = false →
      (downscaleGo ops cap ms g work n).q = Q_MIN := by
  intro n
  induction n with
  | zero =>
    intro work h
    exact qs_false_q ops.encode work cap Q_MIN Q_MAX (some g) 5 g h
  | succ n ih =>
    intro work
    simp only [downscaleGo]
    by_cases hfit :
      (quality_search_under_cap ops.encode work cap Q_MIN Q_MAX (some g) 5 g).fits = true
    · rw [if_pos hfit]
      intro h
      simp at h
    · rw [if_neg hfit]
      intro h
      exact ih _ h

/-- If the working image enters with both dimensions at least `min_side`,
the image returned with `fits = false` still has both dimensions at least
`min_side`. -/
lemma downscaleGo_false_dims (hsize : ∀ i d, ops.size (ops.resize i d) = d) :
    ∀ (n : Nat) (work : I),
      ms ≤ (ops.size work).1 → ms ≤ (ops.size work).2 →
      (downscaleGo ops cap ms g work n).finalFits = false →
      ms ≤ (ops.size (downscaleGo ops cap ms g work n).image).1 ∧
      ms ≤ (ops.size (downscaleGo ops cap ms g work n).image).2 := by
  intro n
  induction n with
  | zero =>
    intro work hw hh _
    exact ⟨hw, hh⟩
  | succ n ih =>
    intro work hw hh
    simp only [downscaleGo]
    by_cases hfit :
      (quality_search_under_cap ops.encode work cap Q_MIN Q_MAX (some g) 5 g).fits = true
    · rw [if_pos hfit]
      intro h
      simp at h
    · rw [if_neg hfit]
      intro h
      refine ih _ ?_ ?_ h
      · rw [hsize]
        exact (shrinkDims_ge_ms _ _ _ _ _ _).1
      · rw [hsize]
        exact (shrinkDims_ge_ms _ _ _ _ _ _).2

/-- Every round's quality search is started at `lastGoodQ`: the global is
not updated by failed rounds, so the first codec invocation of every
round is at the same bias. -/
lemma downscaleGo_rounds_head :
    ∀ (n : Nat) (work : I),
      ∀ r ∈ (downscaleGo ops cap ms g work n).rounds, r.calls.head? = some g := by
  intro n
  induction n with
  | zero =>
    intro work r hr
    simp only [downscaleGo, List.mem_singleton] at hr
    subst hr
    exact qs_calls_head ops.encode work cap Q_MIN Q_MAX (some g) 5 g
  | succ n ih =>
    intro work r
    simp only [downscaleGo]
    by_cases hfit :
      (quality_search_under_cap ops.encode work cap Q_MIN Q_MAX (some g) 5 g).fits = true
    · rw [if_pos hfit]
      intro hr
      simp only [List.mem_singleton] at hr
      subst hr
      exact qs_calls_head ops.encode work cap Q_MIN Q_MAX (some g) 5 g
    · rw [if_neg hfit]
      intro hr
      simp only [List.mem_cons] at hr
      rcases hr with rfl | hr
      · exact qs_calls_head ops.encode work cap Q_MIN Q_MAX (some g) 5 g
      · exact ih _ r hr

/-- Total number of codec invocations: at most seven (`max_steps + 2`
with the source's `max_steps = 5`) per round, over at most `n + 1`
rounds. -/
lemma downscaleGo_totalCalls :
    ∀ (n : Nat) (work : I),
      totalCalls (downscaleGo ops cap ms g work n) ≤ (n + 1) * 7 := by
  intro n
  induction n with
  | zero =>
    intro work
    have h := qs_calls_len ops.encode work cap Q_MIN Q_MAX (some g) 5 g
    simp only [totalCalls, downscaleGo, List.map_cons, List.map_nil, List.sum_cons,
      List.sum_nil]
    omega
  | succ n ih =>
    intro work
    simp only [downscaleGo]
    by_cases hfit :
      (quality_search_under_cap ops.encode work cap Q_MIN Q_MAX (some g) 5 g).fits = true
    · rw [if_pos hfit]
      have h := qs_calls_len ops.encode work cap Q_MIN Q_MAX (some g) 5 g
      simp only [totalCalls, List.map_cons, List.map_nil, List.sum_cons, List.sum_nil]
      omega
    · rw [if_neg hfit]
      have h := qs_calls_len ops.encode work cap Q_MIN Q_MAX (some g) 5 g
      have h2 := ih (ops.resize work
        (shrinkDims ops.sqrtFn cap
          (quality_search_under_cap ops.encode work cap Q_MIN Q_MAX (some g) 5 g).data.length
          (ops.size work).1 (ops.size work).2 ms))
      simp only [totalCalls, List.map_cons, List.sum_cons] at h2 ⊢
      omega

/-- The trace of working images starts with the image the call entered
with. -/
lemma downscaleGo_works_head :
    ∀ (n : Nat) (work : I),
      (downscaleGo ops cap ms g work n).works.head? = some work := by
  intro n work
  cases n with
  | zero => rfl
  | succ n =>
    simp only [downscaleGo]
    by_cases hfit :
      (quality_search_under_cap ops.encode work cap Q_MIN Q_MAX (some g) 5 g).fits = true
    · rw [if_pos hfit]
      rfl
    · rw [if_neg hfit]
      rfl

/-- The per-round dimension invariant: consecutive working images never
grow (given the entry image is at least `min_side` on both sides), and
strictly shrink while both dimensions are strictly above `min_side`. -/
lemma downscaleGo_works_chain (hsize : ∀ i d, ops.size (ops.resize i d) = d) :
    ∀ (n : Nat) (work : I),
      ms ≤ (ops.size work).1 → ms ≤ (ops.size work).2 →
      List.Chain' (fun a b =>
        ((ops.size b).1 ≤ (ops.size a).1 ∧ (ops.size b).2 ≤ (ops.size a).2) ∧
        (ms < (ops.size a).1 → ms < (ops.size a).2 →
          (ops.size b).1 < (ops.size a).1 ∧ (ops.size b).2 < (ops.size a).2))
        (downscaleGo ops cap ms g work n).works := by
  intro n
  induction n with
  | zero =>
    intro work _ _
    exact List.chain'_singleton _
  | succ n ih =>
    intro work hw hh
    simp only [downscaleGo]
    by_cases hfit :
      (quality_search_under_cap ops.encode work cap Q_MIN Q_MAX (some g) 5 g).fits = true
    · rw [if_pos hfit]
      exact List.chain'_singleton _
    · rw [if_neg hfit]
      refine List.chain'_cons'.2 ⟨?_, ?_⟩
      · intro y hy
        rw [downscaleGo_works_head] at hy
        simp only [Option.mem_def, Option.some_inj] at hy
        subst hy
        obtain ⟨_, _, h3, h4, h5⟩ := shrinkDims_spec ops.sqrtFn cap
          (quality_search_under_cap ops.encode work cap Q_MIN Q_MAX (some g) 5 g).data.length
          (ops.size work).1 (ops.size work).2 ms hw hh
        rw [hsize]
        exact ⟨⟨h3, h4⟩, fun a b => h5 a b⟩
      · refine ih _ ?_ ?_
        · rw [hsize]
          exact (shrinkDims_ge_ms _ _ _ _ _ _).1
        · rw [hsize]
          exact (shrinkDims_ge_ms _ _ _ _ _ _).2

end DownLemmas

/-- With the source's `MAX_DOWNSCALE_STEPS = 5`, a `fits = false` result
has gone through at least one resize, so the returned image has both
dimensions at least `min_side` — whatever the dimensions of the input
image were. -/
lemma downscale_to_limit_false_dims {I : Type} (ops : ImgOps I) (img : I)
    (cap ms : Nat) (g : Int) (hsize : ∀ i d, ops.size (ops.resize i d) = d)
    (h : (downscale_to_limit ops img cap ms g).finalFits = false) :
    ms ≤ (ops.size (downscale_to_limit ops img cap ms g).image).1 ∧
    ms ≤ (ops.size (downscale_to_limit ops img cap ms g).image).2 := by
  have h5 : MAX_DOWNSCALE_STEPS = Nat.succ 4 := rfl
  unfold downscale_to_limit at h ⊢
  rw [h5] at h ⊢
  simp only [downscaleGo] at h ⊢
  by_cases hfit :
    (quality_search_under_cap ops.encode img cap Q_MIN Q_MAX (some g) 5 g).fits = true
  · rw [if_pos hfit] at h
    simp at h
  · rw [if_neg hfit] at h ⊢
    refine downscaleGo_false_dims ops cap ms g hsize 4 _ ?_ ?_ h
    · rw [hsize]
      exact (shrinkDims_ge_ms _ _ _ _ _ _).1
    · rw [hsize]
      exact (shrinkDims_ge_ms _ _ _ _ _ _).2

/-! ### The claims -/

/-- C1: whenever the quality search reports `fits = true`, the returned
bytes fit the budget, and every `_downscale_to_limit` result whose last
search fitted satisfies `len(bytes) <= budget`. -/
theorem C1_budget_satisfaction {I J : Type} (enc : I → Int → List Nat) (img : I)
    (cap : Nat) (qMin qMax : Int) (sq : Option Int) (steps : Nat) (lgq : Int)
    (ops : ImgOps J) (jmg : J) (cap2 ms : Nat) (g : Int) :
    ((quality_search_under_cap enc img cap qMin qMax sq steps lgq).fits = true →
      (quality_search_under_cap enc img cap qMin qMax sq steps lgq).data.length ≤ cap) ∧
    ((downscale_to_limit ops jmg cap2 ms g).finalFits = true →
      (downscale_to_limit ops jmg cap2 ms g).data.length ≤ cap2) :=
  ⟨qs_fits_le enc img cap qMin qMax sq steps lgq,
   downscaleGo_finalFits_le ops cap2 ms g MAX_DOWNSCALE_STEPS jmg⟩

/-- Witness for C1 at a concrete fitting input (5-byte outputs, 10-byte
budget: the fast path fits immediately). -/
theorem C1_budget_satisfaction_witness :
    ((quality_search_under_cap (constOps 5).encode ((1024, 1024) : Nat × Nat) 10
        Q_MIN Q_MAX (some 78) 5 78).fits = true ∧
      (quality_search_under_cap (constOps 5).encode ((1024, 1024) : Nat × Nat) 10
        Q_MIN Q_MAX (some 78) 5 78).data.length ≤ 10) ∧
    ((downscale_to_limit (constOps 5) (1024, 1024) 10 640 78).finalFits = true ∧
      (downscale_to_limit (constOps 5) (1024, 1024) 10 640 78).data.length ≤ 10) :=
  ⟨⟨by decide,
    (C1_budget_satisfaction (constOps 5).encode ((1024, 1024) : Nat × Nat) 10
      Q_MIN Q_MAX (some 78) 5 78 (constOps 5) ((1024, 1024) : Nat × Nat) 10 640 78).1
      (by decide)⟩,
   ⟨by decide,
    (C1_budget_satisfaction (constOps 5).encode ((1024, 1024) : Nat × Nat) 10
      Q_MIN Q_MAX (some 78) 5 78 (constOps 5) ((1024, 1024) : Nat × Nat) 10 640 78).2
      (by decide)⟩⟩

/-- C2 counterexample: a 400×300 input is *resized up* to 640×640 by the
first non-fitting round (dimensions are not non-increasing), and a
640×640 input keeps its dimensions unchanged through a round whose search
did not fit (no strict decrease). -/
theorem C2_monotonic_downscale_cex :
    ((downscale_to_limit (constOps 11) (400, 300) 10 640 78).works.headI = (400, 300) ∧
     (downscale_to_limit (constOps 11) (400, 300) 10 640 78).works.getD 1 (0, 0) =
       (640, 640) ∧
     ¬ (640 ≤ 400)) ∧
    ((downscale_to_limit (constOps 11) (640, 640) 10 640 78).rounds.headI.fits = false ∧
     (downscale_to_limit (constOps 11) (640, 640) 10 640 78).works.headI = (640, 640) ∧
     (downscale_to_limit (constOps 11) (640, 640) 10 640 78).works.getD 1 (0, 0) =
       (640, 640)) := by
  with_unfolding_all decide

/-- C2 (amended): provided the input image has both dimensions at least
`min_side`, consecutive working images never grow, and both dimensions
strictly decrease whenever the previous round's image had both dimensions
strictly above `min_side`. -/
theorem C2_monotonic_downscale {I : Type} (ops : ImgOps I) (img : I) (cap ms : Nat)
    (g : Int) (hsize : ∀ i d, ops.size (ops.resize i d) = d)
    (hw : ms ≤ (ops.size img).1) (hh : ms ≤ (ops.size img).2) :
    List.Chain' (fun a b =>
      ((ops.size b).1 ≤ (ops.size a).1 ∧ (ops.size b).2 ≤ (ops.size a).2) ∧
      (ms < (ops.size a).1 → ms < (ops.size a).2 →
        (ops.size b).1 < (ops.size a).1 ∧ (ops.size b).2 < (ops.size a).2))
      (downscale_to_limit ops img cap ms g).works :=
  downscaleGo_works_chain ops cap ms g hsize MAX_DOWNSCALE_STEPS img hw hh

/-- Witness for C2 (amended) on a 1024×1024 input that shrinks
942, 866, 796, 732, 673. -/
theorem C2_monotonic_downscale_witness :
    List.Chain' (fun a b =>
      (((constOps 11).size b).1 ≤ ((constOps 11).size a).1 ∧
        ((constOps 11).size b).2 ≤ ((constOps 11).size a).2) ∧
      (640 < ((constOps 11).size a).1 → 640 < ((constOps 11).size a).2 →
        ((constOps 11).size b).1 < ((constOps 11).size a).1 ∧
        ((constOps 11).size b).2 < ((constOps 11).size a).2))
      (downscale_to_limit (constOps 11) (1024, 1024) 10 640 78).works :=
  C2_monotonic_downscale (constOps 11) (1024, 1024) 10 640 78
    (fun _ _ => rfl) (by decide) (by decide)

/-- C3: evaluation of the code at the failing input.  A 400×300 image
(below `min_side = 640` on both sides) with a codec output that never
fits is resized to 640×640 — an upscale that also destroys the aspect
ratio — in round one, and resized again (to the same 640×640) in every
following round, instead of receiving a single 0.85 shrink to 340×255. -/
theorem C3_small_image_upscaled :
    (downscale_to_limit (constOps 11) (400, 300) 10 640 78).works =
      [(400, 300), (640, 640), (640, 640), (640, 640), (640, 640), (640, 640)] ∧
    (downscale_to_limit (constOps 11) (400, 300) 10 640 78).image = (640, 640) := by
  with_unfolding_all decide

/-- C4 counterexample: two runs that return the *same* value to the
caller while the budget was met in one and missed in the other — the
triple `_downscale_to_limit` returns carries no `fits` flag and does not
determine whether the budget was met. -/
theorem C4_fits_flag_cex :
    fitTriple stepOps (640, 640) 100 640 78 = fitTriple stepOps (640, 640) 99 640 78 ∧
    (downscale_to_limit stepOps (640, 640) 100 640 78).finalFits = true ∧
    (downscale_to_limit stepOps (640, 640) 99 640 78).finalFits = false ∧
    (downscale_to_limit stepOps (640, 640) 100 640 78).data.length ≤ 100 ∧
    ¬ ((downscale_to_limit stepOps (640, 640) 99 640 78).data.length ≤ 99) := by
  with_unfolding_all decide

/-- C4 (amended): the caller receives exactly the three components
(final image, bytes, quality); the `ok` flag of the last search is
dropped.  The heuristic state is updated to the returned quality on every
path. -/
theorem C4_three_component_result {I : Type} (ops : ImgOps I) (img : I)
    (cap ms : Nat) (g : Int) :
    fitTriple ops img cap ms g =
      ((downscale_to_limit ops img cap ms g).image,
       (downscale_to_limit ops img cap ms g).data,
       (downscale_to_limit ops img cap ms g).q) ∧
    (downscale_to_limit ops img cap ms g).newLastGood =
      (downscale_to_limit ops img cap ms g).q :=
  ⟨rfl, downscaleGo_newLastGood ops cap ms g MAX_DOWNSCALE_STEPS img⟩

/-- C5 counterexample: a 1024×1024 input whose codec output never fits a
10-byte budget ends with `fits = false` and shorter side 673 — neither
`min_side = 640` nor the original 1024. -/
theorem C5_best_effort_cex :
    (downscale_to_limit (constOps 11) (1024, 1024) 10 640 78).finalFits = false ∧
    min ((constOps 11).size
        (downscale_to_limit (constOps 11) (1024, 1024) 10 640 78).image).1
      ((constOps 11).size
        (downscale_to_limit (constOps 11) (1024, 1024) 10 640 78).image).2 = 673 ∧
    (673 : Nat) ≠ MIN_SIDE_PX ∧ (673 : Nat) ≠ 1024 := by
  with_unfolding_all decide

/-- C5 (amended): a `fits = false` result has quality `Q_MIN` and an
image with both sides at least `min_side` (but not necessarily equal to
it). -/
theorem C5_best_effort {I : Type} (ops : ImgOps I) (img : I) (cap ms : Nat)
    (g : Int) (hsize : ∀ i d, ops.size (ops.resize i d) = d)
    (hfalse : (downscale_to_limit ops img cap ms g).finalFits = false) :
    (downscale_to_limit ops img cap ms g).q = Q_MIN ∧
    ms ≤ (ops.size (downscale_to_limit ops img cap ms g).image).1 ∧
    ms ≤ (ops.size (downscale_to_limit ops img cap ms g).image).2 :=
  ⟨downscaleGo_false_q ops cap ms g MAX_DOWNSCALE_STEPS img hfalse,
   (downscale_to_limit_false_dims ops img cap ms g hsize hfalse).1,
   (downscale_to_limit_false_dims ops img cap ms g hsize hfalse).2⟩

/-- Witness for C5 (amended) at the 1024×1024 never-fitting input. -/
theorem C5_best_effort_witness :
    (downscale_to_limit (constOps 11) (1024, 1024) 10 640 78).finalFits = false ∧
    ((downscale_to_limit (constOps 11) (1024, 1024) 10 640 78).q = Q_MIN ∧
     640 ≤ ((constOps 11).size
        (downscale_to_limit (constOps 11) (1024, 1024) 10 640 78).image).1 ∧
     640 ≤ ((constOps 11).size
        (downscale_to_limit (constOps 11) (1024, 1024) 10 640 78).image).2) :=
  ⟨by with_unfolding_all decide,
   C5_best_effort (constOps 11) (1024, 1024) 10 640 78 (fun _ _ => rfl)
     (by with_unfolding_all decide)⟩

/-- C6 counterexample: round one of the concrete run returns quality 30
(the floor), yet round two's search starts (first codec invocation) at
78, the original heuristic bias — not at 30. -/
theorem C6_round_start_bias_cex :
    (downscale_to_limit (constOps 11) (1024, 1024) 10 640 78).rounds.headI.q = 30 ∧
    ((downscale_to_limit (constOps 11) (1024, 1024) 10 640 78).rounds.getD 1
       default).calls.head? = some 78 ∧
    (78 : Int) ≠ 30 := by
  with_unfolding_all decide

/-- C6 (amended): every round of one `_downscale_to_limit` call starts
its search at the heuristic bias the call entered with (`_last_good_q`),
which failed rounds never update. -/
theorem C6_round_start_bias {I : Type} (ops : ImgOps I) (img : I)
    (cap ms : Nat) (g : Int) :
    ∀ r ∈ (downscale_to_limit ops img cap ms g).rounds, r.calls.head? = some g :=
  downscaleGo_rounds_head ops cap ms g MAX_DOWNSCALE_STEPS img

/-- Witness for C6 (amended) at the first round of a concrete run. -/
theorem C6_round_start_bias_witness :
    ((downscale_to_limit (constOps 11) (1024, 1024) 10 640 78).rounds.headI).calls.head? =
      some 78 :=
  C6_round_start_bias (constOps 11) (1024, 1024) 10 640 78 _
    (by with_unfolding_all decide)

/-- C7 counterexample: a caller-supplied `start_q = 200` is not clamped —
the very first codec invocation is at quality 200, outside
`[Q_MIN, Q_MAX]`. -/
theorem C7_clamping_cex :
    (quality_search_under_cap (constOps 11).encode ((1024, 1024) : Nat × Nat) 10
      Q_MIN Q_MAX (some 200) 5 78).calls.head? = some 200 ∧
    ¬ ((200 : Int) ≤ Q_MAX) := by
  decide

/-- C7 (amended): clamping of the start quality happens only when the
caller does not supply one; a supplied start quality inside
`[q_min, q_max]` keeps every codec invocation inside `[q_min, q_max]`. -/
theorem C7_quality_range {I : Type} (enc : I → Int → List Nat) (img : I)
    (cap : Nat) (qMin qMax s : Int) (steps : Nat) (g : Int)
    (h1 : qMin ≤ s) (h2 : s ≤ qMax) :
    (∀ q ∈ (quality_search_under_cap enc img cap qMin qMax (some s) steps g).calls,
      qMin ≤ q ∧ q ≤ qMax) ∧
    (quality_search_under_cap enc img cap qMin qMax none steps g).calls.head? =
      some (max qMin (min qMax g)) :=
  ⟨qs_calls_bounds enc img cap qMin qMax steps g h1 h2,
   qs_calls_head enc img cap qMin qMax none steps g⟩

/-- Witness for C7 (amended) on the first invocation of a concrete
search. -/
theorem C7_quality_range_witness :
    Q_MIN ≤ ((quality_search_under_cap (constOps 11).encode ((1024, 1024) : Nat × Nat)
        10 Q_MIN Q_MAX (some 78) 5 78).calls.headI) ∧
    ((quality_search_under_cap (constOps 11).encode ((1024, 1024) : Nat × Nat)
        10 Q_MIN Q_MAX (some 78) 5 78).calls.headI) ≤ Q_MAX :=
  (C7_quality_range (constOps 11).encode ((1024, 1024) : Nat × Nat) 10
    Q_MIN Q_MAX 78 5 78 (by decide) (by decide)).1 _ (by decide)

/-- C8: one search performs at most `max_steps + 2` codec invocations,
and one `_downscale_to_limit` call performs at most
`(MAX_DOWNSCALE_STEPS + 1) * (5 + 2) = 42` codec invocations in total. -/
theorem C8_bounded_work {I J : Type} (enc : I → Int → List Nat) (img : I)
    (cap : Nat) (qMin qMax : Int) (sq : Option Int) (steps : Nat) (lgq : Int)
    (ops : ImgOps J) (jmg : J) (cap2 ms : Nat) (g : Int) :
    (quality_search_under_cap enc img cap qMin qMax sq steps lgq).calls.length ≤
      steps + 2 ∧
    totalCalls (downscale_to_limit ops jmg cap2 ms g) ≤
      (MAX_DOWNSCALE_STEPS + 1) * (5 + 2) :=
  ⟨qs_calls_len enc img cap qMin qMax sq steps lgq,
   downscaleGo_totalCalls ops cap2 ms g MAX_DOWNSCALE_STEPS jmg⟩

/-- C9: determinism — identical image, budget, minimum side and heuristic
state produce identical complete outputs (bytes, image, quality, state,
flag and traces); the codec is a pure function of image and quality. -/
theorem C9_deterministic {I : Type} (ops : ImgOps I) (img img2 : I)
    (cap cap2 ms ms2 : Nat) (g g2 : Int)
    (h1 : img = img2) (h2 : cap = cap2) (h3 : ms = ms2) (h4 : g = g2) :
    downscale_to_limit ops img cap ms g = downscale_to_limit ops img2 cap2 ms2 g2 := by
  subst h1
  subst h2
  subst h3
  subst h4
  rfl

/-- Witness for C9 at a concrete input. -/
theorem C9_deterministic_witness :
    downscale_to_limit (constOps 11) (1024, 1024) 10 640 78 =
      downscale_to_limit (constOps 11) (1024, 1024) 10 640 78 :=
  C9_deterministic (constOps 11) (1024, 1024) (1024, 1024) 10 10 640 640 78 78
    rfl rfl rfl rfl

/-- C10: on every return path, the returned bytes equal the codec
encoding of the returned image at the returned quality — for the search
and for the downscale controller. -/
theorem C10_bytes_quality_consistent {I J : Type} (enc : I → Int → List Nat)
    (img : I) (cap : Nat) (qMin qMax : Int) (sq : Option Int) (steps : Nat)
    (lgq : Int) (ops : ImgOps J) (jmg : J) (cap2 ms : Nat) (g : Int) :
    (quality_search_under_cap enc img cap qMin qMax sq steps lgq).data =
      enc img (quality_search_under_cap enc img cap qMin qMax sq steps lgq).q ∧
    (downscale_to_limit ops jmg cap2 ms g).data =
      ops.encode (downscale_to_limit ops jmg cap2 ms g).image
        (downscale_to_limit ops jmg cap2 ms g).q :=
  ⟨qs_data_eq enc img cap qMin qMax sq steps lgq,
   downscaleGo_data_eq ops cap2 ms g MAX_DOWNSCALE_STEPS jmg⟩

end FinalCam
